import Mathlib

/-!
Verification development for the dockerfile-templater repository.

The template engine (utils: includeFun, tplFun, ParseTemplate,
InitTemplateDirs, UpdateAndGetMapElementByPath) and the variant pipeline
(cmd/templater.go and the legacy main.go: Verify, UpdateData, initTemplate)
are embedded shallowly below.  Go's text/template execution is modelled by
a fuel-indexed evaluator over a deep syntax of template bodies; the mutable
recursion counter map (map[string]int) is threaded explicitly as an
association list of Int values, with Go map read semantics (absent key
reads as 0, but presence is observable via the comma-ok idiom).
-/

set_option maxRecDepth 100000

/-- Counter map for includeFun: Go map[string]int, threaded explicitly. -/
abbrev Counter := List (String × Int)

/-- Go comma-ok map read: first binding for the key, if present. -/
def lookupC (c : Counter) (k : String) : Option Int :=
  match c with
  | [] => none
  | p :: rest => if p.1 = k then some p.2 else lookupC rest k

/-- Go plain map read: absent keys read as the zero value 0. -/
def lookupD (c : Counter) (k : String) : Int :=
  (lookupC c k).getD 0

/-- Go map write: update the first binding for the key, or append one. -/
def setC (c : Counter) (k : String) (v : Int) : Counter :=
  match c with
  | [] => [(k, v)]
  | p :: rest => if p.1 = k then (k, v) :: rest else p :: setC rest k v

/-- Go decrement statement on a map entry (present keys only on the paths
    where the source runs it; absent keys would yield 0 - 1, as in Go). -/
def decC (c : Counter) (k : String) : Counter :=
  setC c k (lookupD c k - 1)

/-- The fixed recursion ceiling from the source: const recursionMaxNums = 1000. -/
def recursionMaxNums : Int := 1000

/-- A structured data value passed to templates: a yaml-like tree of
    string scalars and string-keyed mappings (map[string]interface of Go). -/
inductive YVal where
  | vstr : String → YVal
  | vmap : List (String × YVal) → YVal

/-- A data bag, the representation of Go map[string]interface. -/
abbrev YMap := List (String × YVal)

/-- Map read on a data bag (Go map access, first binding wins). -/
def lookupY (m : YMap) (k : String) : Option YVal :=
  match m with
  | [] => none
  | p :: rest => if p.1 = k then some p.2 else lookupY rest k

/-- Map write on a data bag. -/
def setY (m : YMap) (k : String) (v : YVal) : YMap :=
  match m with
  | [] => [(k, v)]
  | p :: rest => if p.1 = k then (k, v) :: rest else p :: setY rest k v

/-- How Go's fmt renders a value interpolated by text/template.  Strings
    render as themselves; the rendering of a whole map is engine detail no
    claim depends on, abstracted to a fixed token. -/
def goPrint : YVal → String
  | .vstr s => s
  | .vmap _ => "map[...]"

/-- Argument expression handed to the include and tpl template functions:
    either the current data (the dot) or a literal value. -/
inductive Dexpr where
  | dot : Dexpr
  | const : YVal → Dexpr

/-- Evaluate a data argument against the current data. -/
def evalD (dx : Dexpr) (d : YVal) : YVal :=
  match dx with
  | .dot => d
  | .const v => v

/-- Deep syntax of a parsed template body: literal text, sequencing, a
    field access (a dotted key on the current data), a call of the custom
    include function, and a call of the custom tpl function.  Because the
    engine's parser is external, the source text handed to tpl appears
    here already parsed: the named define blocks it introduces plus its
    main body. -/
inductive Tpl where
  | lit : String → Tpl
  | seq : Tpl → Tpl → Tpl
  | field : String → Tpl
  | inc : String → Dexpr → Tpl
  | tplc : List (String × Tpl) → Tpl → Dexpr → Tpl

/-- The compiled set of named sub-templates of one root Template, in the
    order the parses added them. -/
abbrev TplEnv := List (String × Tpl)

/-- First-match association lookup on template definitions. -/
def lookupT : TplEnv → String → Option Tpl
  | [], _ => none
  | p :: rest, n => if p.1 = n then some p.2 else lookupT rest n

/-- Name resolution in a compiled set: a later parse of the same name
    replaces the earlier definition, so the last binding wins. -/
def envLookup (env : TplEnv) (n : String) : Option Tpl :=
  lookupT env.reverse n

/-- Character-level check that pat occurs at the head of s. -/
def matchesAt : List Char → List Char → Bool
  | [], _ => true
  | _ :: _, [] => false
  | p :: ps, c :: cs => p = c && matchesAt ps cs

/-- The error text of the recursion guard in includeFun: errors.Wrapf of
    an execution failure with the nested reference name. -/
def recMsg (name : String) : String :=
  "rendering template has a nested reference name: " ++ name ++
    ": unable to execute template"

/-- The engine's error for executing an undefined template name. -/
def noTplMsg (name : String) : String :=
  "template: no template associated with name " ++ name

/-- Go strings.ReplaceAll of the literal no-value placeholder by the empty
    string, on the character list: leftmost occurrence first, the scan
    resumes after the removed match, the output is not rescanned. -/
def stripNoValueGo : Nat → List Char → List Char
  | 0, s => s
  | _ + 1, [] => []
  | fuel + 1, c :: rest =>
      if matchesAt "<no value>".data (c :: rest) then
        stripNoValueGo fuel ((c :: rest).drop "<no value>".data.length)
      else
        c :: stripNoValueGo fuel rest

/-- Go strings.ReplaceAll of the placeholder: every scan step consumes at
    least one character, so fuel equal to the length never runs out. -/
def stripNoValue (s : List Char) : List Char :=
  stripNoValueGo s.length s

/-- String-level wrapper of stripNoValue. -/
def stripNoValueStr (s : String) : String :=
  ⟨stripNoValue s.data⟩

/-- Fuel-indexed execution of a template body against the compiled set
    env, the current data d, and the shared recursion counter c.  This is
    the shallow embedding of text/template execution specialised to the
    engine of utils: the inc case is includeFun (recursion guard on the
    comma-ok read, increment or initialisation to 1, ExecuteTemplate of the
    named body, decrement on every path that executed), and the tplc case
    is tplFun (clone of the compiled set extended by the newly parsed
    defines, execution of the new body against the same counter, wrap of
    execution errors, strip of the no-value placeholder on success).
    Fuel 0 returns an out-of-fuel error, an artifact of the embedding. -/
def exec (env : TplEnv) : Nat → Tpl → YVal → Counter →
    Except String String × Counter
  | 0, _, _, c => (.error "out of fuel", c)
  | _ + 1, .lit s, _, c => (.ok s, c)
  | fuel + 1, .seq a b, d, c =>
      match exec env fuel a d c with
      | (.ok sa, c1) =>
          match exec env fuel b d c1 with
          | (.ok sb, c2) => (.ok (sa ++ sb), c2)
          | (.error e, c2) => (.error e, c2)
      | (.error e, c1) => (.error e, c1)
  | _ + 1, .field k, d, c =>
      match d with
      | .vmap m =>
          match lookupY m k with
          | some v => (.ok (goPrint v), c)
          | none => (.ok "<no value>", c)
      | .vstr _ => (.error ("can not evaluate field " ++ k), c)
  | fuel + 1, .inc name dx, d, c =>
      match lookupC c name with
      | some v =>
          if v > recursionMaxNums then
            (.error (recMsg name), c)
          else
            let r :=
              match envLookup env name with
              | some body => exec env fuel body (evalD dx d) (setC c name (v + 1))
              | none => (.error (noTplMsg name), setC c name (v + 1))
            (r.1, decC r.2 name)
      | none =>
          let r :=
            match envLookup env name with
            | some body => exec env fuel body (evalD dx d) (setC c name 1)
            | none => (.error (noTplMsg name), setC c name 1)
          (r.1, decC r.2 name)
  | fuel + 1, .tplc defs body dx, d, c =>
      match exec (env ++ defs) fuel body (evalD dx d) c with
      | (.ok s, c2) => (.ok (stripNoValueStr s), c2)
      | (.error e, c2) => (.error ("error during tpl function execution: " ++ e), c2)

/-- ExecuteTemplate of a named sub-template: resolve the name in the
    compiled set and execute its body, or fail with the engine's missing
    template error. -/
def runNamed (env : TplEnv) (fuel : Nat) (name : String) (d : YVal)
    (c : Counter) : Except String String × Counter :=
  match envLookup env name with
  | some body => exec env fuel body d c
  | none => (.error (noTplMsg name), c)

/-- The executor of exec, additionally threading a high-water mark: the
    maximum value ever written into the counter map during the run.  The
    three write sites of includeFun (initialisation to 1, increment,
    decrement) each update the mark; everything else is exec unchanged. -/
def execH (env : TplEnv) : Nat → Tpl → YVal → Counter → Int →
    Except String String × Counter × Int
  | 0, _, _, c, h => (.error "out of fuel", c, h)
  | _ + 1, .lit s, _, c, h => (.ok s, c, h)
  | fuel + 1, .seq a b, d, c, h =>
      match execH env fuel a d c h with
      | (.ok sa, c1, h1) =>
          match execH env fuel b d c1 h1 with
          | (.ok sb, c2, h2) => (.ok (sa ++ sb), c2, h2)
          | (.error e, c2, h2) => (.error e, c2, h2)
      | (.error e, c1, h1) => (.error e, c1, h1)
  | _ + 1, .field k, d, c, h =>
      match d with
      | .vmap m =>
          match lookupY m k with
          | some v => (.ok (goPrint v), c, h)
          | none => (.ok "<no value>", c, h)
      | .vstr _ => (.error ("can not evaluate field " ++ k), c, h)
  | fuel + 1, .inc name dx, d, c, h =>
      match lookupC c name with
      | some v =>
          if v > recursionMaxNums then
            (.error (recMsg name), c, h)
          else
            let r :=
              match envLookup env name with
              | some body =>
                  execH env fuel body (evalD dx d) (setC c name (v + 1)) (max h (v + 1))
              | none => (.error (noTplMsg name), setC c name (v + 1), max h (v + 1))
            (r.1, setC r.2.1 name (lookupD r.2.1 name - 1),
              max r.2.2 (lookupD r.2.1 name - 1))
      | none =>
          let r :=
            match envLookup env name with
            | some body => execH env fuel body (evalD dx d) (setC c name 1) (max h 1)
            | none => (.error (noTplMsg name), setC c name 1, max h 1)
          (r.1, setC r.2.1 name (lookupD r.2.1 name - 1),
            max r.2.2 (lookupD r.2.1 name - 1))
  | fuel + 1, .tplc defs body dx, d, c, h =>
      match execH (env ++ defs) fuel body (evalD dx d) c h with
      | (.ok s, c2, h2) => (.ok (stripNoValueStr s), c2, h2)
      | (.error e, c2, h2) =>
          (.error ("error during tpl function execution: " ++ e), c2, h2)

/-- A compiled set with one sub-template a that includes itself. -/
def selfIncEnv : TplEnv := [("a", Tpl.inc "a" Dexpr.dot)]

/-- Scan for an occurrence of the literal no-value placeholder anywhere in
    a character list. -/
def hasNoValueAux : List Char → Bool
  | [] => false
  | c :: rest => matchesAt "<no value>".data (c :: rest) || hasNoValueAux rest

/-- Whether a string contains the literal no-value placeholder token. -/
def hasNoValueToken (s : String) : Bool :=
  hasNoValueAux s.data

/-- The image sub-object of a variant: pointers in Go, so each field is
    optional (nil when the yaml key is absent). -/
structure GoImage where
  name : Option String
  tag : Option String

/-- The legacy variant of main.go: only the image pointer matters to
    Verify; the open data bag is irrelevant to validation. -/
structure VariantM where
  image : Option GoImage

/-- The variant of cmd/templater.go: a name pointer and an image pointer. -/
structure VariantC where
  name : Option String
  image : Option GoImage

/-- Verify of main.go: logMissingAttribute logs at the error level, which
    is log.Fatalf, so the process terminates at the first missing
    attribute; the result is the first fatally reported attribute, or none
    when validation passes.  The nil image exits before the nested field
    accesses run, so no nil dereference occurs. -/
def VariantM.Verify (v : VariantM) : Option String :=
  match v.image with
  | none => some "image"
  | some img =>
      if img.name.isNone then some "image.name"
      else if img.tag.isNone then some "image.tag"
      else none

/-- Verify of cmd/templater.go: the same fatal-exit semantics, but the
    name pointer is checked first and is required. -/
def VariantC.Verify (v : VariantC) : Option String :=
  if v.name.isNone then some "name"
  else
    match v.image with
    | none => some "image"
    | some img =>
        if img.name.isNone then some "image.name"
        else if img.tag.isNone then some "image.tag"
        else none

/-- Modelled from the spec words of claim C7: the first missing field
    among image, image.name, image.tag, checked in that order and
    short-circuiting. -/
def firstMissingImageField : Option GoImage → Option String
  | none => some "image"
  | some i =>
      if i.name.isNone then some "image.name"
      else if i.tag.isNone then some "image.tag"
      else none

/-- Go strings.Split on a one-character separator, at the character level:
    splitting the empty text yields one empty segment, as in Go. -/
def splitOnChar (sep : Char) : List Char → List (List Char)
  | [] => [[]]
  | c :: rest =>
      let r := splitOnChar sep rest
      if c = sep then [] :: r
      else
        match r with
        | [] => [[c]]
        | h :: t => (c :: h) :: t

/-- String-level wrapper of splitOnChar. -/
def goSplit (s : String) (sep : Char) : List String :=
  (splitOnChar sep s.data).map (fun l => String.mk l)

/-- utils.UpdateAndGetMapElementByPath: follows the key path through the
    data bag, creating an empty nested map wherever a key is absent (the
    mutation is returned as the updated bag), and reports failure when an
    existing value along the path is a scalar rather than a map (the Go
    function returns nil there).  On success the referenced element is the
    map reached by following the whole path in the updated bag. -/
def UpdateAndGetMapElementByPath (st : YMap) (keyPath : List String) :
    YMap × Bool :=
  match keyPath with
  | [] => (st, true)
  | k :: rest =>
      match lookupY st k with
      | none =>
          let r := UpdateAndGetMapElementByPath [] rest
          (setY st k (.vmap r.1), r.2)
      | some (.vmap nested) =>
          let r := UpdateAndGetMapElementByPath nested rest
          (setY st k (.vmap r.1), r.2)
      | some (.vstr _) => (st, false)

/-- Write value v under key k inside the map reached by path in st: the
    functional rendering of assigning through the pointer returned by
    UpdateAndGetMapElementByPath. -/
def setAtPath (st : YMap) : List String → String → YVal → YMap
  | [], k, v => setY st k v
  | p :: rest, k, v =>
      match lookupY st p with
      | some (.vmap m) => setY st p (.vmap (setAtPath m rest k v))
      | _ => st

/-- The part of the variant.UpdateData loop body after the variant-name
    scoping check: split the key path on dots, traverse (and create) all
    but the last segment, then assign the override value under the last
    segment.  When the traversal hits a scalar the Go code logs a warning
    but then still assigns into the nil map, a runtime panic, modelled as
    the error result. -/
def applyKeyPath (data : YMap) (keyPath : String) (val : String) :
    Except String YMap :=
  let keyPathList := goSplit keyPath '.'
  let step : YMap × Bool :=
    if keyPathList.length > 1 then
      UpdateAndGetMapElementByPath data keyPathList.dropLast
    else (data, true)
  if step.2 then
    .ok (setAtPath step.1 keyPathList.dropLast (keyPathList.getLastD "")
      (.vstr val))
  else .error "panic: assignment to entry in nil map"

/-- One iteration of variant.UpdateData for the variant named name: split
    the override key on colons; when that yields exactly two segments and
    the first differs from the variant name, the override is skipped;
    otherwise the last segment is the key path. -/
def updateDataVar (name : String) (data : YMap) (kv : String × String) :
    Except String YMap :=
  let variantKey := goSplit kv.1 ':'
  if variantKey.length = 2 ∧ variantKey.headD "" ≠ name then .ok data
  else applyKeyPath data (variantKey.getLastD "") kv.2

/-- variant.UpdateData over a list of overrides (Go iterates a map in
    unspecified order; the per-override effect is the loop body above). -/
def UpdateData (name : String) (data : YMap)
    (vars : List (String × String)) : Except String YMap :=
  vars.foldlM (fun d kv => updateDataVar name d kv) data

/-- Template.ParseGlob of one fragment directory: appends the named
    definitions contributed by the directory's matching files, in glob
    order, to the compiled set (a later definition of an existing name
    wins at lookup, per envLookup). -/
def parseGlobM (t : TplEnv) (dirTpls : TplEnv) : TplEnv :=
  t ++ dirTpls

/-- utils.InitTemplateDirs: parses each auxiliary directory into the
    template, in the order the directories are given. -/
def InitTemplateDirsM (t : TplEnv) (dirs : List TplEnv) : TplEnv :=
  dirs.foldl parseGlobM t

/-- Template.ParseFiles of the primary source file: appends the named
    definitions the file contributes. -/
def parseFilesM (t : TplEnv) (fileTpls : TplEnv) : TplEnv :=
  t ++ fileTpls

/-- utils.ParseTemplate in its two-argument revision (part_002): an empty
    root template, then InitTemplateDirs over the fragment directories,
    then ParseFiles of the primary file. -/
def ParseTemplateDirsFirst (fileTpls : TplEnv) (dirs : List TplEnv) : TplEnv :=
  parseFilesM (InitTemplateDirsM [] dirs) fileTpls

/-- utils.ParseTemplate in its one-argument revision (no directory
    support): an empty root template, then ParseFiles of the primary. -/
def ParseTemplateFileOnly (fileTpls : TplEnv) : TplEnv :=
  parseFilesM [] fileTpls

/-- templater.initTemplate of cmd/templater.go: ParseTemplate of the
    primary Dockerfile template first, then initTemplateDirs over the
    fragment directories. -/
def initTemplateCmd (fileTpls : TplEnv) (dirs : List TplEnv) : TplEnv :=
  InitTemplateDirsM (ParseTemplateFileOnly fileTpls) dirs

example : exec [("a", .lit "x")] 5 (.inc "a" .dot) (.vmap []) [] =
    (.ok "x", [("a", 0)]) := rfl

example : exec [("a", .lit "x")] 6
    (.seq (.inc "a" .dot) (.inc "a" .dot)) (.vmap []) [] =
    (.ok "xx", [("a", 0)]) := rfl

example : stripNoValueStr "<no va<no value>lue>" = "<no value>" := rfl

example : execH [("a", .inc "a" .dot)] 3 (.inc "a" .dot) (.vmap []) [] 0 =
    (.error "out of fuel", [("a", 0)], 3) := rfl

/-- Reading back the key just written returns the new value. -/
theorem lookupC_setC_self (c : Counter) (k : String) (v : Int) :
    lookupC (setC c k v) k = some v := by
  induction c with
  | nil => simp [setC, lookupC]
  | cons p rest ih =>
      simp only [setC]
      by_cases hp : p.1 = k
      · rw [if_pos hp]; simp [lookupC]
      · rw [if_neg hp]; simp [lookupC, hp, ih]

/-- Writing one key leaves the reads of every other key unchanged. -/
theorem lookupC_setC_ne (c : Counter) (k : String) (v : Int) (x : String)
    (h : x ≠ k) : lookupC (setC c k v) x = lookupC c x := by
  induction c with
  | nil =>
      simp only [setC, lookupC]
      rw [if_neg (fun hh : k = x => h hh.symm)]
  | cons p rest ih =>
      simp only [setC]
      by_cases hp : p.1 = k
      · rw [if_pos hp]
        simp only [lookupC]
        rw [if_neg (fun hh : k = x => h hh.symm),
          if_neg (fun hh : p.1 = x => h (hp.symm.trans hh).symm)]
      · rw [if_neg hp]
        simp only [lookupC, ih]

/-- lookupD version of the write lemmas. -/
theorem lookupD_setC (c : Counter) (k : String) (v : Int) (x : String) :
    lookupD (setC c k v) x = if x = k then v else lookupD c x := by
  by_cases h : x = k
  · subst h; simp [lookupD, lookupC_setC_self]
  · simp [lookupD, lookupC_setC_ne c k v x h, h]

/-- After any execution the counter reads, through Go map semantics
    (absent keys read as 0), exactly as before it: every include call that
    incremented also decrements on return, and a refused include touches
    nothing. -/
theorem exec_restore :
    ∀ (fuel : Nat) (env : TplEnv) (t : Tpl) (d : YVal) (c : Counter)
      (x : String),
      lookupD (exec env fuel t d c).2 x = lookupD c x := by
  intro fuel
  induction fuel with
  | zero => intro env t d c x; simp [exec]
  | succ fuel ih =>
      intro env t d c x
      cases t with
      | lit s => simp [exec]
      | seq a b =>
          simp only [exec]
          split
          next sa c1 heq =>
            have e1 := ih env a d c x
            rw [heq] at e1
            split
            next sb c2 heq2 =>
              have e2 := ih env b d c1 x
              rw [heq2] at e2
              exact e2.trans e1
            next e c2 heq2 =>
              have e2 := ih env b d c1 x
              rw [heq2] at e2
              exact e2.trans e1
          next e c1 heq =>
            have e1 := ih env a d c x
            rw [heq] at e1
            exact e1
      | field k =>
          cases d with
          | vmap m => cases h : lookupY m k <;> simp [exec, h]
          | vstr s => simp [exec]
      | inc name dx =>
          simp only [exec]
          cases hl : lookupC c name with
          | some v =>
              dsimp only
              by_cases hg : v > recursionMaxNums
              · rw [if_pos hg]
              · rw [if_neg hg]
                simp only [decC]
                cases he : envLookup env name with
                | some body =>
                    dsimp only
                    have ebx := ih env body (evalD dx d) (setC c name (v + 1)) x
                    have ebn := ih env body (evalD dx d) (setC c name (v + 1)) name
                    rw [lookupD_setC]
                    by_cases hx : x = name
                    · rw [if_pos hx, ebn, lookupD_setC, if_pos rfl, hx]
                      simp [lookupD, hl]
                    · rw [if_neg hx, ebx, lookupD_setC, if_neg hx]
                | none =>
                    simp only
                    rw [lookupD_setC]
                    by_cases hx : x = name
                    · rw [if_pos hx, lookupD_setC, if_pos rfl, hx]
                      simp [lookupD, hl]
                    · rw [if_neg hx, lookupD_setC, if_neg hx]
          | none =>
              dsimp only
              simp only [decC]
              cases he : envLookup env name with
              | some body =>
                  dsimp only
                  have ebx := ih env body (evalD dx d) (setC c name 1) x
                  have ebn := ih env body (evalD dx d) (setC c name 1) name
                  rw [lookupD_setC]
                  by_cases hx : x = name
                  · rw [if_pos hx, ebn, lookupD_setC, if_pos rfl, hx]
                    simp [lookupD, hl]
                  · rw [if_neg hx, ebx, lookupD_setC, if_neg hx]
              | none =>
                  simp only
                  rw [lookupD_setC]
                  by_cases hx : x = name
                  · rw [if_pos hx, lookupD_setC, if_pos rfl, hx]
                    simp [lookupD, hl]
                  · rw [if_neg hx, lookupD_setC, if_neg hx]
      | tplc defs body dx =>
          simp only [exec]
          split
          next s c2 heq =>
            have eb := ih (env ++ defs) body (evalD dx d) c x
            rw [heq] at eb
            exact eb
          next e c2 heq =>
            have eb := ih (env ++ defs) body (evalD dx d) c x
            rw [heq] at eb
            exact eb

/-- The instrumented executor computes the same result and the same final
    counter as exec: the high-water mark is a pure observer. -/
theorem execH_agree :
    ∀ (fuel : Nat) (env : TplEnv) (t : Tpl) (d : YVal) (c : Counter)
      (h : Int),
      (execH env fuel t d c h).1 = (exec env fuel t d c).1 ∧
      (execH env fuel t d c h).2.1 = (exec env fuel t d c).2 := by
  intro fuel
  induction fuel with
  | zero => intro env t d c h; simp [execH, exec]
  | succ fuel ih =>
      intro env t d c h
      cases t with
      | lit s => simp [execH, exec]
      | seq a b =>
          simp only [execH, exec]
          obtain ⟨ha1, ha2⟩ := ih env a d c h
          rcases hH : execH env fuel a d c h with ⟨r1, c1, h1⟩
          rcases hE : exec env fuel a d c with ⟨r1', c1'⟩
          rw [hH, hE] at ha1 ha2
          dsimp at ha1 ha2
          subst ha1
          subst ha2
          cases r1 with
          | ok sa =>
              dsimp only
              obtain ⟨hb1, hb2⟩ := ih env b d c1 h1
              rcases hH2 : execH env fuel b d c1 h1 with ⟨r2, c2, h2⟩
              rcases hE2 : exec env fuel b d c1 with ⟨r2', c2'⟩
              rw [hH2, hE2] at hb1 hb2
              dsimp at hb1 hb2
              subst hb1
              subst hb2
              cases r2 <;> exact ⟨rfl, rfl⟩
          | error e => exact ⟨rfl, rfl⟩
      | field k =>
          cases d with
          | vmap m => cases hY : lookupY m k <;> simp [execH, exec, hY]
          | vstr s => simp [execH, exec]
      | inc name dx =>
          simp only [execH, exec]
          cases hl : lookupC c name with
          | some v =>
              dsimp only
              by_cases hg : v > recursionMaxNums
              · rw [if_pos hg, if_pos hg]
                exact ⟨rfl, rfl⟩
              · rw [if_neg hg, if_neg hg]
                cases he : envLookup env name with
                | some body =>
                    dsimp only
                    obtain ⟨hb1, hb2⟩ :=
                      ih env body (evalD dx d) (setC c name (v + 1)) (max h (v + 1))
                    exact ⟨hb1, by rw [decC, hb2]⟩
                | none =>
                    dsimp only
                    exact ⟨rfl, by rw [decC]⟩
          | none =>
              dsimp only
              cases he : envLookup env name with
              | some body =>
                  dsimp only
                  obtain ⟨hb1, hb2⟩ :=
                    ih env body (evalD dx d) (setC c name 1) (max h 1)
                  exact ⟨hb1, by rw [decC, hb2]⟩
              | none =>
                  dsimp only
                  exact ⟨rfl, by rw [decC]⟩
      | tplc defs body dx =>
          simp only [execH, exec]
          obtain ⟨hb1, hb2⟩ := ih (env ++ defs) body (evalD dx d) c h
          rcases hH : execH (env ++ defs) fuel body (evalD dx d) c h with ⟨r1, c1, h1⟩
          rcases hE : exec (env ++ defs) fuel body (evalD dx d) c with ⟨r1', c1'⟩
          rw [hH, hE] at hb1 hb2
          dsimp at hb1 hb2
          subst hb1
          subst hb2
          cases r1 <;> exact ⟨rfl, rfl⟩

/-- The high-water mark never decreases during execution. -/
theorem execH_hwm_mono :
    ∀ (fuel : Nat) (env : TplEnv) (t : Tpl) (d : YVal) (c : Counter)
      (h : Int), h ≤ (execH env fuel t d c h).2.2 := by
  intro fuel
  induction fuel with
  | zero => intro env t d c h; simp [execH]
  | succ fuel ih =>
      intro env t d c h
      cases t with
      | lit s => simp [execH]
      | seq a b =>
          simp only [execH]
          have iha := ih env a d c h
          rcases hH : execH env fuel a d c h with ⟨r1, c1, h1⟩
          rw [hH] at iha
          dsimp at iha
          cases r1 with
          | ok sa =>
              dsimp only
              have ihb := ih env b d c1 h1
              rcases hH2 : execH env fuel b d c1 h1 with ⟨r2, c2, h2⟩
              rw [hH2] at ihb
              dsimp at ihb
              cases r2 <;> exact le_trans iha ihb
          | error e => exact iha
      | field k =>
          cases d with
          | vmap m => cases hY : lookupY m k <;> simp [execH, hY]
          | vstr s => simp [execH]
      | inc name dx =>
          simp only [execH]
          cases hl : lookupC c name with
          | some v =>
              dsimp only
              by_cases hg : v > recursionMaxNums
              · rw [if_pos hg]
              · rw [if_neg hg]
                cases he : envLookup env name with
                | some body =>
                    dsimp only
                    have ihb :=
                      ih env body (evalD dx d) (setC c name (v + 1)) (max h (v + 1))
                    rcases hH : execH env fuel body (evalD dx d) (setC c name (v + 1))
                        (max h (v + 1)) with ⟨rb, cb, hb⟩
                    rw [hH] at ihb
                    dsimp at ihb
                    exact le_trans (le_trans (le_max_left h (v + 1)) ihb)
                      (le_max_left hb _)
                | none =>
                    dsimp only
                    exact le_trans (le_max_left h (v + 1))
                      (le_max_left (max h (v + 1)) _)
          | none =>
              dsimp only
              cases he : envLookup env name with
              | some body =>
                  dsimp only
                  have ihb := ih env body (evalD dx d) (setC c name 1) (max h 1)
                  rcases hH : execH env fuel body (evalD dx d) (setC c name 1)
                      (max h 1) with ⟨rb, cb, hb⟩
                  rw [hH] at ihb
                  dsimp at ihb
                  exact le_trans (le_trans (le_max_left h 1) ihb)
                    (le_max_left hb _)
              | none =>
                  dsimp only
                  exact le_trans (le_max_left h 1) (le_max_left (max h 1) _)
      | tplc defs body dx =>
          simp only [execH]
          have ihb := ih (env ++ defs) body (evalD dx d) c h
          rcases hH : execH (env ++ defs) fuel body (evalD dx d) c h
            with ⟨rb, cb, hb⟩
          rw [hH] at ihb
          dsimp at ihb
          cases rb <;> exact ihb

/-- Every value written into the counter map is at most the ceiling plus
    one: the guard admits an increment only from a value of at most the
    ceiling, initialisation writes 1, and each decrement writes one less
    than the value restored by the executed body. -/
theorem execH_hwm_le :
    ∀ (fuel : Nat) (env : TplEnv) (t : Tpl) (d : YVal) (c : Counter)
      (h : Int), h ≤ recursionMaxNums + 1 →
      (execH env fuel t d c h).2.2 ≤ recursionMaxNums + 1 := by
  intro fuel
  induction fuel with
  | zero => intro env t d c h hb; simpa [execH] using hb
  | succ fuel ih =>
      intro env t d c h hb
      cases t with
      | lit s => simpa [execH] using hb
      | seq a b =>
          simp only [execH]
          have iha := ih env a d c h hb
          rcases hH : execH env fuel a d c h with ⟨r1, c1, h1⟩
          rw [hH] at iha
          dsimp at iha
          cases r1 with
          | ok sa =>
              dsimp only
              have ihb := ih env b d c1 h1 iha
              rcases hH2 : execH env fuel b d c1 h1 with ⟨r2, c2, h2⟩
              rw [hH2] at ihb
              dsimp at ihb
              cases r2 <;> exact ihb
          | error e => exact iha
      | field k =>
          cases d with
          | vmap m => cases hY : lookupY m k <;> simpa [execH, hY] using hb
          | vstr s => simpa [execH] using hb
      | inc name dx =>
          simp only [execH]
          cases hl : lookupC c name with
          | some v =>
              dsimp only
              by_cases hg : v > recursionMaxNums
              · rw [if_pos hg]; exact hb
              · rw [if_neg hg]
                have hv1 : max h (v + 1) ≤ recursionMaxNums + 1 :=
                  max_le hb (by omega)
                cases he : envLookup env name with
                | some body =>
                    dsimp only
                    have ihb :=
                      ih env body (evalD dx d) (setC c name (v + 1))
                        (max h (v + 1)) hv1
                    have hcb :
                        (execH env fuel body (evalD dx d) (setC c name (v + 1))
                          (max h (v + 1))).2.1 =
                        (exec env fuel body (evalD dx d) (setC c name (v + 1))).2 :=
                      (execH_agree fuel env body (evalD dx d)
                        (setC c name (v + 1)) (max h (v + 1))).2
                    have hres :
                        lookupD (execH env fuel body (evalD dx d)
                          (setC c name (v + 1)) (max h (v + 1))).2.1 name = v + 1 := by
                      rw [hcb, exec_restore, lookupD_setC, if_pos rfl]
                    rcases hH : execH env fuel body (evalD dx d)
                        (setC c name (v + 1)) (max h (v + 1)) with ⟨rb, cb, hbw⟩
                    rw [hH] at ihb hres
                    dsimp at ihb hres
                    dsimp only
                    rw [hres]
                    exact max_le ihb (by omega)
                | none =>
                    dsimp only
                    rw [lookupD_setC, if_pos rfl]
                    exact max_le hv1 (by omega)
          | none =>
              dsimp only
              have hv1 : max h 1 ≤ recursionMaxNums + 1 :=
                max_le hb (by norm_num [recursionMaxNums])
              cases he : envLookup env name with
              | some body =>
                  dsimp only
                  have ihb := ih env body (evalD dx d) (setC c name 1) (max h 1) hv1
                  have hcb :
                      (execH env fuel body (evalD dx d) (setC c name 1)
                        (max h 1)).2.1 =
                      (exec env fuel body (evalD dx d) (setC c name 1)).2 :=
                    (execH_agree fuel env body (evalD dx d) (setC c name 1)
                      (max h 1)).2
                  have hres :
                      lookupD (execH env fuel body (evalD dx d) (setC c name 1)
                        (max h 1)).2.1 name = 1 := by
                    rw [hcb, exec_restore, lookupD_setC, if_pos rfl]
                  rcases hH : execH env fuel body (evalD dx d) (setC c name 1)
                      (max h 1) with ⟨rb, cb, hbw⟩
                  rw [hH] at ihb hres
                  dsimp at ihb hres
                  dsimp only
                  rw [hres]
                  exact max_le ihb (by norm_num [recursionMaxNums])
              | none =>
                  dsimp only
                  rw [lookupD_setC, if_pos rfl]
                  exact max_le hv1 (by norm_num [recursionMaxNums])
      | tplc defs body dx =>
          simp only [execH]
          have ihb := ih (env ++ defs) body (evalD dx d) c h hb
          rcases hH : execH (env ++ defs) fuel body (evalD dx d) c h
            with ⟨rb, cb, hbw⟩
          rw [hH] at ihb
          dsimp at ihb
          cases rb <;> exact ihb

/-- Running the self-including sub-template from depth k with enough fuel
    drives a counter write up to the ceiling plus one. -/
theorem selfInc_hwm_ge :
    ∀ (n : Nat) (k h : Int) (d : YVal), 0 ≤ k → k ≤ recursionMaxNums →
      recursionMaxNums + 1 ≤ k + n →
      recursionMaxNums + 1 ≤
        (execH selfIncEnv n (.inc "a" .dot) d [("a", k)] h).2.2 := by
  intro n
  induction n with
  | zero =>
      intro k h d h0 h1 h2
      exfalso
      push_cast at h2
      omega
  | succ n ihn =>
      intro k h d h0 h1 h2
      simp only [execH]
      have hl : lookupC [("a", k)] "a" = some k := by simp [lookupC]
      rw [hl]
      dsimp only
      rw [if_neg (by omega : ¬ k > recursionMaxNums)]
      have he : envLookup selfIncEnv "a" = some (Tpl.inc "a" Dexpr.dot) := rfl
      rw [he]
      dsimp only [evalD]
      have hs : setC [("a", k)] "a" (k + 1) = [("a", k + 1)] := by simp [setC]
      rw [hs]
      by_cases hk : k + 1 ≤ recursionMaxNums
      · have hge := ihn (k + 1) (max h (k + 1)) d (by omega) hk
          (by push_cast at h2 ⊢; omega)
        exact le_trans hge (le_max_left _ _)
      · have hmono := execH_hwm_mono n selfIncEnv (.inc "a" .dot) d
          [("a", k + 1)] (max h (k + 1))
        have hstart : recursionMaxNums + 1 ≤ max h (k + 1) :=
          le_trans (by omega) (le_max_right h (k + 1))
        exact le_trans (le_trans hstart hmono) (le_max_left _ _)

/-- Claim C2 counterexample: during a concrete run (a sub-template that includes
    itself directly, executed from the program's initial state of an empty
    counter map), a value stored in the Inclusion Call Stack Counter
    strictly exceeds the ceiling 1000: the guard refuses only at a
    pre-increment value strictly above the ceiling, so the stored depth
    reaches 1001. -/
theorem c2_counter_exceeds_ceiling :
    recursionMaxNums <
      (execH selfIncEnv 1001 (Tpl.inc "a" Dexpr.dot) (YVal.vmap []) [] 0).2.2 := by
  show recursionMaxNums <
    (execH selfIncEnv (1000 + 1) (Tpl.inc "a" Dexpr.dot) (YVal.vmap []) [] 0).2.2
  simp only [execH]
  have hl : lookupC [] "a" = none := rfl
  rw [hl]
  dsimp only
  have he : envLookup selfIncEnv "a" = some (Tpl.inc "a" Dexpr.dot) := rfl
  rw [he]
  dsimp only [evalD]
  have hs : setC [] "a" 1 = [("a", 1)] := rfl
  rw [hs]
  have hge := selfInc_hwm_ge 1000 1 (max 0 1) (YVal.vmap [])
    (by norm_num) (by norm_num [recursionMaxNums])
    (by push_cast; norm_num [recursionMaxNums])
  have : recursionMaxNums < recursionMaxNums + 1 := by omega
  exact lt_of_lt_of_le this (le_trans hge (le_max_left _ _))

/-- Claim C2 (amended): for every compiled set, fuel, template body and data,
    in a run from the program's initial state (empty counter map, no write
    yet recorded) every value stored in the Inclusion Call Stack Counter
    is at most 1001, that is the recursion ceiling plus one; the original
    bound of 1000 is exceeded by exactly one, as the counterexample above
    shows, because the guard refuses an inclusion only when the
    pre-increment value is already strictly above the ceiling. -/
theorem c2_stored_counter_bound :
    ∀ (env : TplEnv) (fuel : Nat) (t : Tpl) (d : YVal),
      (execH env fuel t d [] 0).2.2 ≤ recursionMaxNums + 1 := by
  intro env fuel t d
  exact execH_hwm_le fuel env t d [] 0 (by norm_num [recursionMaxNums])

/-- Claim C3: on both the success and the failure path of every include call
    (and of any execution) the depth counter of every name reads, after
    the call, exactly as before the call; consequently two consecutive
    non-nested include calls of the same name are both accepted. -/
theorem c3_counter_restored :
    (∀ (env : TplEnv) (fuel : Nat) (t : Tpl) (d : YVal) (c : Counter)
        (x : String),
        lookupD (exec env fuel t d c).2 x = lookupD c x) ∧
    exec [("a", Tpl.lit "x")] 6
        (.seq (.inc "a" .dot) (.inc "a" .dot)) (.vmap []) [] =
      (.ok "xx", [("a", 0)]) :=
  ⟨fun env fuel t d c x => exec_restore fuel env t d c x, rfl⟩

/-- Claim C1: an include call with a present counter whose pre-increment value
    already exceeds the ceiling fails with the recursion error naming the
    offending sub-template, leaves the counter untouched and does not
    execute anything (the result is independent of the compiled set);
    otherwise (present and within the ceiling, or absent and initialised
    to 1) the named sub-template is executed against the evaluated data
    argument and its result returned, with the counter decremented at the
    incremented or initialised entry. -/
theorem c1_include_semantics :
    ∀ (env env2 : TplEnv) (fuel : Nat) (name : String) (dx : Dexpr)
      (d : YVal) (c : Counter),
      (∀ v : Int, lookupC c name = some v → v > recursionMaxNums →
        exec env (fuel + 1) (.inc name dx) d c = (.error (recMsg name), c) ∧
        exec env (fuel + 1) (.inc name dx) d c =
          exec env2 (fuel + 1) (.inc name dx) d c) ∧
      (∀ v : Int, lookupC c name = some v → ¬ v > recursionMaxNums →
        exec env (fuel + 1) (.inc name dx) d c =
          ((runNamed env fuel name (evalD dx d) (setC c name (v + 1))).1,
            decC (runNamed env fuel name (evalD dx d) (setC c name (v + 1))).2
              name)) ∧
      (lookupC c name = none →
        exec env (fuel + 1) (.inc name dx) d c =
          ((runNamed env fuel name (evalD dx d) (setC c name 1)).1,
            decC (runNamed env fuel name (evalD dx d) (setC c name 1)).2
              name)) := by
  intro env env2 fuel name dx d c
  refine ⟨?_, ?_, ?_⟩
  · intro v hl hg
    constructor
    · simp only [exec]
      rw [hl]
      dsimp only
      rw [if_pos hg]
    · simp only [exec]
      rw [hl]
      dsimp only
      rw [if_pos hg, if_pos hg]
  · intro v hl hg
    simp only [exec, runNamed]
    rw [hl]
    dsimp only
    rw [if_neg hg]
  · intro hl
    simp only [exec, runNamed]
    rw [hl]

/-- Witness for c1_include_semantics at concrete inputs: a refused call at
    stored depth 1001, an accepted call at stored depth 5, and an accepted
    first call with no stored depth. -/
theorem c1_include_semantics_witness :
    exec [("a", Tpl.lit "x")] (2 + 1) (.inc "a" .dot) (.vmap [])
        [("a", 1001)] =
      (.error (recMsg "a"), [("a", 1001)]) ∧
    exec [("a", Tpl.lit "x")] (2 + 1) (.inc "a" .dot) (.vmap [])
        [("a", 5)] =
      ((runNamed [("a", Tpl.lit "x")] 2 "a" (evalD .dot (.vmap []))
          (setC [("a", 5)] "a" (5 + 1))).1,
        decC (runNamed [("a", Tpl.lit "x")] 2 "a" (evalD .dot (.vmap []))
          (setC [("a", 5)] "a" (5 + 1))).2 "a") ∧
    exec [("a", Tpl.lit "x")] (2 + 1) (.inc "a" .dot) (.vmap []) [] =
      ((runNamed [("a", Tpl.lit "x")] 2 "a" (evalD .dot (.vmap []))
          (setC [] "a" 1)).1,
        decC (runNamed [("a", Tpl.lit "x")] 2 "a" (evalD .dot (.vmap []))
          (setC [] "a" 1)).2 "a") :=
  ⟨((c1_include_semantics [("a", Tpl.lit "x")] [] 2 "a" .dot (.vmap [])
      [("a", 1001)]).1 1001 rfl (by decide)).1,
    (c1_include_semantics [("a", Tpl.lit "x")] [] 2 "a" .dot (.vmap [])
      [("a", 5)]).2.1 5 rfl (by decide),
    (c1_include_semantics [("a", Tpl.lit "x")] [] 2 "a" .dot (.vmap [])
      []).2.2 rfl⟩

/-- Claim C5: the include function seen inside a tpl evaluation closes over the
    same counter map as the parent: a name whose shared depth already
    exceeds the ceiling is refused inside the freshly parsed text as well,
    whatever define blocks the tpl source introduced, and the error is
    wrapped by the tpl execution. -/
theorem c5_shared_counter :
    ∀ (env defs : TplEnv) (fuel : Nat) (name : String) (dx dx2 : Dexpr)
      (d : YVal) (c : Counter) (v : Int),
      lookupC c name = some v → v > recursionMaxNums →
      exec env (fuel + 2) (.tplc defs (.inc name dx2) dx) d c =
        (.error ("error during tpl function execution: " ++ recMsg name), c) := by
  intro env defs fuel name dx dx2 d c v hl hg
  simp only [exec]
  rw [hl]
  dsimp only
  rw [if_pos hg]

/-- Witness for c5_shared_counter: a counter at depth 1001 accumulated in
    the parent refuses the inclusion performed inside the tpl call. -/
theorem c5_shared_counter_witness :
    exec [] (1 + 2) (.tplc [("a", .lit "y")] (.inc "a" .dot) .dot)
        (.vmap []) [("a", 1001)] =
      (.error ("error during tpl function execution: " ++ recMsg "a"),
        [("a", 1001)]) :=
  c5_shared_counter [] [("a", .lit "y")] 1 "a" .dot .dot (.vmap [])
    [("a", 1001)] 1001 rfl (by decide)

/-- Claim C6 counterexample: a successful tpl call whose returned string is
    exactly the literal placeholder token.  The rendered text is the
    placeholder split around a reference to an absent key; the single
    left-to-right removal pass deletes the inner occurrence and thereby
    glues a new occurrence together, which is returned. -/
theorem c6_placeholder_reappears :
    exec [] 5
        (.tplc [] (.seq (.lit "<no va") (.seq (.field "k") (.lit "lue>")))
          (.const (.vmap [])))
        (.vmap []) [] =
      (.ok "<no value>", []) ∧
    hasNoValueToken "<no value>" = true :=
  ⟨rfl, rfl⟩

/-- Claim C6 (amended): the string returned by a successful tpl call is the
    rendered output with the occurrences of the engine's literal
    unresolved-value placeholder removed in one left-to-right pass (which,
    as the counterexample shows, can itself recreate the token); in
    particular tpl applied to a template that only references an absent
    key with empty data returns the empty string. -/
theorem c6_missing_key_empty :
    ∀ (env : TplEnv) (fuel : Nat) (key : String) (d : YVal) (c : Counter),
      exec env (fuel + 2) (.tplc [] (.field key) (.const (.vmap []))) d c =
        (.ok "", c) := by
  intro env fuel key d c
  simp only [exec]
  dsimp only [evalD]
  have hk : lookupY [] key = none := rfl
  rw [hk]
  dsimp only
  have hstrip : stripNoValueStr "<no value>" = "" := rfl
  rw [hstrip]

/-- Stepping lemma: a sequence whose first part succeeded continues with
    the second part on the updated counter. -/
theorem exec_seq_ok (env : TplEnv) (fuel : Nat) (a b : Tpl) (d : YVal)
    (c : Counter) (sa : String) (c1 : Counter)
    (h : exec env fuel a d c = (.ok sa, c1)) :
    exec env (fuel + 1) (.seq a b) d c =
      (match exec env fuel b d c1 with
       | (.ok sb, c2) => (.ok (sa ++ sb), c2)
       | (.error e, c2) => (.error e, c2)) := by
  simp only [exec, h]

/-- Claim C4: a tpl call parses the definitions of its source text only into the
    clone: inside the tpl evaluation the new name is includable (first
    conjunct), while a subsequent include of that name from the parent
    context still fails with the engine's missing template execution
    error, the parent compiled set being unchanged (second conjunct). -/
theorem c4_tpl_clone_isolation :
    ∀ (env : TplEnv) (fuel : Nat) (name s : String) (dx dx2 : Dexpr)
      (d : YVal) (c : Counter),
      envLookup env name = none → lookupC c name = none →
      (exec env (fuel + 3) (.tplc [(name, .lit s)] (.inc name dx2) dx) d c).1 =
          .ok (stripNoValueStr s) ∧
      (exec env (fuel + 3)
          (.seq (.tplc [(name, .lit s)] (.lit "") dx) (.inc name dx2)) d c).1 =
        .error (noTplMsg name) := by
  intro env fuel name s dx dx2 d c henv hc
  have hA : envLookup (env ++ [(name, Tpl.lit s)]) name = some (Tpl.lit s) := by
    simp [envLookup, List.reverse_append, lookupT]
  constructor
  · simp only [exec]
    rw [hc]
    dsimp only
    rw [hA]
    rfl
  · have h2 : exec env (fuel + 2) (.inc name dx2) d c =
        (.error (noTplMsg name), setC (setC c name 1) name 0) := by
      simp only [exec]
      rw [hc]
      dsimp only
      rw [henv]
      dsimp only [decC]
      rw [lookupD_setC, if_pos rfl]
      norm_num
    have h1 : exec env (fuel + 2)
        (.tplc [(name, Tpl.lit s)] (.lit "") dx) d c = (.ok "", c) := rfl
    rw [exec_seq_ok env (fuel + 2) _ _ d c "" c h1, h2]

/-- Witness for c4_tpl_clone_isolation at concrete inputs: an empty parent
    compiled set and an empty counter. -/
theorem c4_tpl_clone_isolation_witness :
    (exec [] (0 + 3) (.tplc [("x", .lit "y")] (.inc "x" .dot) .dot)
        (.vmap []) []).1 = .ok (stripNoValueStr "y") ∧
    (exec [] (0 + 3)
        (.seq (.tplc [("x", .lit "y")] (.lit "") .dot) (.inc "x" .dot))
        (.vmap []) []).1 = .error (noTplMsg "x") :=
  c4_tpl_clone_isolation [] 0 "x" "y" .dot .dot (.vmap []) [] rfl rfl

/-- Claim C7 counterexample: in the cmd implementation a variant whose image,
    image.name and image.tag are all present but whose optional name
    identifier is absent does not pass validation: it fails fatally naming
    name, although the claim says such a variant passes. -/
theorem c7_cmd_requires_name :
    VariantC.Verify ⟨none, some ⟨some "app", some "v1"⟩⟩ = some "name" ∧
    VariantC.Verify ⟨none, some ⟨some "app", some "v1"⟩⟩ ≠ none :=
  ⟨rfl, by decide⟩

/-- Claim C7 (amended): the legacy main.go Verify reports exactly the first
    missing field among image, image.name, image.tag in that order,
    short-circuiting through the fatal exit, and passes when all three are
    present (name plays no role there); the cmd Verify additionally
    requires the name identifier and checks it first, and behaves
    identically to the legacy order once name is present. -/
theorem c7_verify_first_missing :
    (∀ v : VariantM, VariantM.Verify v = firstMissingImageField v.image) ∧
    (∀ v : VariantC,
      VariantC.Verify v =
        if v.name.isNone then some "name"
        else firstMissingImageField v.image) ∧
    (∀ nm tg : String, VariantM.Verify ⟨some ⟨some nm, some tg⟩⟩ = none) ∧
    (∀ vn nm tg : String,
      VariantC.Verify ⟨some vn, some ⟨some nm, some tg⟩⟩ = none) :=
  ⟨fun _ => rfl, fun _ => rfl, fun _ _ => rfl, fun _ _ _ => rfl⟩

example : goSplit "a:b:c.d" ':' = ["a", "b", "c.d"] := rfl

example : goSplit "" ':' = [""] := rfl

example : goSplit "a.b" '.' = ["a", "b"] := rfl

example : updateDataVar "v1" [] ("a", "x") = .ok [("a", .vstr "x")] := rfl

example : updateDataVar "v1" [] ("v2:a", "x") = .ok [] := rfl

example : updateDataVar "v1" [] ("a.b", "x") =
    .ok [("a", .vmap [("b", .vstr "x")])] := rfl

/-- Claim C8: an override whose dot-separated path traverses an existing scalar
    is not dropped with only a warning: after the warning the Go code
    still assigns into the nil map returned by the traversal, a runtime
    panic that crashes the run.  Evaluation of the model at the failing
    input, an override a.b against a bag where a holds a scalar. -/
theorem c8_scalar_path_panics :
    updateDataVar "v1" [("a", .vstr "s")] ("a.b", "x") =
      .error "panic: assignment to entry in nil map" := rfl

/-- Claim C10: an override key with two or more colon separators skips the
    variant-name scoping check entirely (the same result for every variant
    name) and only the text after the last colon is used as the key path,
    the earlier segments being discarded. -/
theorem c10_multi_colon_discards_scope :
    ∀ (name name2 : String) (data : YMap) (key val : String),
      3 ≤ (goSplit key ':').length →
      updateDataVar name data (key, val) =
        applyKeyPath data ((goSplit key ':').getLastD "") val ∧
      updateDataVar name data (key, val) = updateDataVar name2 data (key, val) := by
  intro name name2 data key val hlen
  have hcond : ∀ nm : String,
      ¬((goSplit key ':').length = 2 ∧ (goSplit key ':').headD "" ≠ nm) :=
    fun nm h => by omega
  constructor
  · rw [updateDataVar, if_neg (hcond name)]
  · rw [updateDataVar, if_neg (hcond name), updateDataVar,
      if_neg (hcond name2)]

/-- Witness for c10_multi_colon_discards_scope at a concrete two-colon
    key: the override lands on the path after the last colon, whatever
    the variant name. -/
theorem c10_multi_colon_discards_scope_witness :
    (updateDataVar "v1" [("k", .vstr "z")] ("v1:v2:a.b", "x") =
        applyKeyPath [("k", .vstr "z")]
          ((goSplit "v1:v2:a.b" ':').getLastD "") "x" ∧
      updateDataVar "v1" [("k", .vstr "z")] ("v1:v2:a.b", "x") =
        updateDataVar "other" [("k", .vstr "z")] ("v1:v2:a.b", "x")) :=
  c10_multi_colon_discards_scope "v1" "other" [("k", .vstr "z")]
    "v1:v2:a.b" "x" (by decide)

/-- Folding directory parses is appending their concatenation. -/
theorem InitTemplateDirsM_eq (dirs : List TplEnv) :
    ∀ t : TplEnv, InitTemplateDirsM t dirs = t ++ dirs.flatten := by
  induction dirs with
  | nil => intro t; simp [InitTemplateDirsM]
  | cons d ds ih =>
      intro t
      simp only [InitTemplateDirsM, List.foldl_cons, List.flatten_cons]
      have := ih (parseGlobM t d)
      simp only [InitTemplateDirsM] at this
      rw [this, parseGlobM, List.append_assoc]

/-- Claim C9 counterexample: in the cmd templater the primary file is parsed
    before the fragment directory, so the compiled set holds the primary
    entry first and the fragment entry after it, not the other way
    around as the claim requires. -/
theorem c9_cmd_parses_file_first :
    initTemplateCmd [("main", .lit "m")] [[("x", .lit "d")]] =
      [("main", .lit "m"), ("x", .lit "d")] ∧
    initTemplateCmd [("main", .lit "m")] [[("x", .lit "d")]] ≠
      [("x", .lit "d"), ("main", .lit "m")] :=
  ⟨rfl, fun h => by
    have h2 := congrArg (fun l => (l.headD ("", Tpl.lit "")).1) h
    exact absurd h2 (by decide)⟩

/-- Claim C9 (amended): in the two-argument ParseTemplate revision every
    fragment directory is parsed before the primary file, so all fragment
    definitions precede the primary entries in the compiled set; in the
    cmd templater revision (one-argument ParseTemplate followed by
    initTemplateDirs) it is the primary file that is parsed first and the
    fragment directories after it. -/
theorem c9_parse_order :
    (∀ (fileTpls : TplEnv) (dirs : List TplEnv),
      ParseTemplateDirsFirst fileTpls dirs = dirs.flatten ++ fileTpls) ∧
    (∀ (fileTpls : TplEnv) (dirs : List TplEnv),
      initTemplateCmd fileTpls dirs = fileTpls ++ dirs.flatten) := by
  constructor
  · intro fileTpls dirs
    rw [ParseTemplateDirsFirst, parseFilesM, InitTemplateDirsM_eq,
      List.nil_append]
  · intro fileTpls dirs
    rw [initTemplateCmd, InitTemplateDirsM_eq, ParseTemplateFileOnly,
      parseFilesM, List.nil_append]
